import Mathlib

/-!
Verification of the `water` in-process workflow engine (Python) against its
natural-language specification, via a shallow embedding in Lean 4.

Embedding conventions:
* Python `Dict[str, Any]` data records are modelled by the inductive `Value`
  type (ints, strings, bools, nested string-keyed dictionaries); dictionaries
  are insertion-ordered association lists with Python's overwrite-in-place
  update semantics (`dictInsert`).
* A task body `execute(params, context)` is abstracted as a pure function
  `Value → Value` of the current data record (`params["input_data"]`): the
  async/sync distinction collapses (both paths in the source invoke the same
  body and return its result), and the properties under verification treat the
  body as a function of the input record only.
* Wall-clock timestamps (`datetime.utcnow()`) are abstracted to `0`; the
  run-unique `uuid` execution id is abstracted to a fixed string. No verified
  property depends on either.
* Mutation is modelled by explicit state passing: engine functions return the
  (possibly mutated) context alongside the data. Python's reference/aliasing
  structure of `ExecutionContext` (which object a mutation lands on) is
  modelled separately with an explicit heap (`CtxHeap`) for the fork-isolation
  properties of `create_child_context`.
-/

namespace Water

/-- Python `Dict[str, Any]` data records (`InputData` / `OutputData` in
`water/types.py`): integers, strings, booleans and nested string-keyed
dictionaries suffice for every record the verified properties touch. -/
inductive Value : Type where
  | int (n : Int)
  | str (s : String)
  | bool (b : Bool)
  | dict (entries : List (String × Value))

/-- Python dict update `d[k] = v`: overwrite in place if the key is present
(keeping its insertion position), otherwise append at the end. -/
def dictInsert {α : Type} (d : List (String × α)) (k : String) (v : α) :
    List (String × α) :=
  if d.any (fun p => p.1 = k) then
    d.map (fun p => if p.1 = k then (k, v) else p)
  else
    d ++ [(k, v)]

/-- Python dict lookup `d.get(k)`. -/
def dictLookup {α : Type} (d : List (String × α)) (k : String) : Option α :=
  (d.find? (fun p => p.1 = k)).map Prod.snd

/-- Source `water/task.py`, class `Task`: identity plus a callable body. The declared
pydantic input/output schemas are pure metadata (never enforced at runtime)
and are omitted; the body is abstracted as a function of the input record. -/
structure Task : Type where
  id : String
  execute : Value → Value

/-- One record of `ExecutionContext._step_history` (`context.py`,
`add_task_output`): the wall-clock `timestamp` field is omitted. -/
structure StepInfo : Type where
  step_number : Nat
  task_id : String
  output : Value
  attempt_number : Nat

/-- Source `water/context.py`, class `ExecutionContext`, value view: all fields of
the Python object, with timestamps abstracted to `Nat` and the metadata
mapping as a string association list. -/
structure ExecutionContext : Type where
  flow_id : String
  execution_id : String
  task_id : Option String
  step_number : Nat
  attempt_number : Nat
  flow_metadata : List (String × String)
  execution_start_time : Nat
  step_start_time : Nat
  task_outputs : List (String × Value)
  step_history : List StepInfo

namespace ExecutionContext

/-- Embeds `ExecutionContext.__init__` with only `flow_id` and `flow_metadata`
supplied (as the engine's `run` does): generated execution id abstracted,
`task_id=None`, `step_number=0`, `attempt_number=1`, empty outputs/history. -/
def init (flow_id : String) (flow_metadata : List (String × String)) :
    ExecutionContext :=
  { flow_id := flow_id
    execution_id := "exec_"
    task_id := none
    step_number := 0
    attempt_number := 1
    flow_metadata := flow_metadata
    execution_start_time := 0
    step_start_time := 0
    task_outputs := []
    step_history := [] }

/-- Embeds `ExecutionContext.add_task_output`: record the output in the
output-by-task-id dict and append a step record to the history. -/
def add_task_output (c : ExecutionContext) (tid : String) (output : Value) :
    ExecutionContext :=
  { c with
    task_outputs := dictInsert c.task_outputs tid output
    step_history := c.step_history ++
      [{ step_number := c.step_number
         task_id := tid
         output := output
         attempt_number := c.attempt_number }] }

/-- Embeds `ExecutionContext.get_task_output`. -/
def get_task_output (c : ExecutionContext) (tid : String) : Option Value :=
  dictLookup c.task_outputs tid

/-- Python's `step_number or (self.step_number + 1)` in
`create_child_context`: `None` and `0` are both falsy, so they fall through to
the parent's step number plus one. -/
def childStep (stepNumber : Option Nat) (parentStep : Nat) : Nat :=
  match stepNumber with
  | some n => if n = 0 then parentStep + 1 else n
  | none => parentStep + 1

/-- Embeds `ExecutionContext.create_child_context` (value view): a fresh context
with the parent's flow/execution identity, the given task id, the computed
step number, the given attempt number, and copies of the parent's outputs map
and history; `execution_start_time` is inherited, `step_start_time` is reset
to "now" (abstracted `0`). -/
def create_child_context (c : ExecutionContext) (tid : String)
    (stepNumber : Option Nat) (attemptNumber : Nat) : ExecutionContext :=
  { flow_id := c.flow_id
    execution_id := c.execution_id
    task_id := some tid
    step_number := childStep stepNumber c.step_number
    attempt_number := attemptNumber
    flow_metadata := c.flow_metadata
    execution_start_time := c.execution_start_time
    step_start_time := 0
    task_outputs := c.task_outputs
    step_history := c.step_history }

end ExecutionContext

/-- One entry of a `BranchNode`'s `branches` list (`water/types.py`,
`BranchCondition`): a synchronous predicate paired with a task. -/
structure BranchEntry : Type where
  condition : Value → Bool
  task : Task

/-- Source `water/types.py`, `ExecutionNode`: the string-tagged node dictionaries of
the source, modelled as a closed sum (the engine's `NodeType` dispatch admits
exactly these four tags). -/
inductive ExecutionNode : Type where
  | sequential (task : Task)
  | parallel (tasks : List Task)
  | branch (branches : List BranchEntry)
  | loop (condition : Value → Bool) (task : Task) (max_iterations : Nat)

namespace ExecutionEngine

/-- Embeds `ExecutionEngine._execute_task`: set the context's current task id, reset
the per-step timer, and invoke the body on the current data. Returns the
result together with the mutated context. -/
def execute_task (task : Task) (data : Value) (context : ExecutionContext) :
    Value × ExecutionContext :=
  let context :=
    { context with task_id := some task.id, step_start_time := 0 }
  (task.execute data, context)

/-- Embeds `ExecutionEngine._execute_sequential`. -/
def execute_sequential (task : Task) (data : Value)
    (context : ExecutionContext) : Value × ExecutionContext :=
  execute_task task data context

/-- Embeds `ExecutionEngine._execute_parallel`: every task body receives the same
input data (each with its own forked child context, which receives no engine
writes); `asyncio.gather` returns the results in task-list order regardless
of completion order, and the results are organized into a dict keyed by task
id (`organized_results[task.id] = result`). -/
def execute_parallel (tasks : List Task) (data : Value)
    (context : ExecutionContext) : List (String × Value) :=
  let _task_contexts :=
    ((List.range tasks.length).zip tasks).map
      (fun it => context.create_child_context it.2.id
        (some (context.step_number + it.1)) 1)
  let results := tasks.map (fun task => task.execute data)
  (tasks.zip results).foldl
    (fun organized tr => dictInsert organized tr.1.id tr.2) []

/-- Embeds `ExecutionEngine._execute_branch`: scan the branch list in declaration
order; on the first predicate returning true, execute that task, record its
output in (this step's) context, and return the result; if none matches,
return the data unchanged. -/
def execute_branch (branches : List BranchEntry) (data : Value)
    (context : ExecutionContext) : Value × ExecutionContext :=
  match branches with
  | [] => (data, context)
  | b :: rest =>
    if b.condition data then
      let (result, context) := execute_task b.task data context
      let context := context.add_task_output b.task.id result
      (result, context)
    else
      execute_branch rest data context

/-- The `while condition(current_data) and iteration_count < max_iterations`
loop of `ExecutionEngine._execute_loop`, with `remaining` the number of
iterations still allowed (`max_iterations - iteration_count`) and `i` the
current `iteration_count`. Each iteration forks an iteration context (which
absorbs `_execute_task`'s field writes and is then dropped), records the
iteration's output under `f"{task.id}_iter_{i}"` in this step's context, and
feeds the output to the next iteration. Returns the final data, the mutated
step context, and the final iteration count. -/
def loopGo (condition : Value → Bool) (task : Task)
    (context : ExecutionContext) (i : Nat) (remaining : Nat)
    (current : Value) : Value × ExecutionContext × Nat :=
  match remaining with
  | 0 => (current, context, i)
  | r + 1 =>
    if condition current then
      let iterId := task.id ++ "_iter_" ++ toString i
      let iteration_context :=
        context.create_child_context iterId (some context.step_number) (i + 1)
      let (next, _) := execute_task task current iteration_context
      let context := context.add_task_output iterId next
      loopGo condition task context (i + 1) r next
    else
      (current, context, i)

/-- Embeds `ExecutionEngine._execute_loop`: run the bounded while-loop starting from
iteration count 0; reaching the cap only prints a warning (no error) and the
last produced data is returned either way. -/
def execute_loop (condition : Value → Bool) (task : Task)
    (max_iterations : Nat) (data : Value) (context : ExecutionContext) :
    Value × ExecutionContext :=
  let (result, context, _count) := loopGo condition task context 0 max_iterations data
  (result, context)

/-- Embeds `ExecutionEngine._execute_node`: dispatch on the node kind. A parallel
node's organized results dict becomes the node's output record; the step
context is returned alongside (branch and loop write into it, parallel and
plain dispatch leave it as is). -/
def execute_node (node : ExecutionNode) (data : Value)
    (context : ExecutionContext) : Value × ExecutionContext :=
  match node with
  | .sequential task => execute_sequential task data context
  | .parallel tasks => (Value.dict (execute_parallel tasks data context), context)
  | .branch branches => execute_branch branches data context
  | .loop condition task max_iterations =>
      execute_loop condition task max_iterations data context

/-- Python's `hasattr(node, 'get') and 'task' in node` test in
`ExecutionEngine.run`: every node dict has `.get`, and only sequential and
loop node dicts carry a `'task'` key. -/
def nodeTask (node : ExecutionNode) : Option Task :=
  match node with
  | .sequential task => some task
  | .parallel _ => none
  | .branch _ => none
  | .loop _ task _ => some task

/-- The `for node in execution_graph` loop of `ExecutionEngine.run`:
increment the step number, fork a per-step child context named
`f"step_{step_number}"`, execute the node against the current data with that
child (whose mutations are discarded), and, when the node dict has a `'task'`
key (sequential and loop nodes), record the node's output on the ROOT context
under that task's id. Returns the final data and the root context. -/
def runGo (graph : List ExecutionNode) (data : Value)
    (context : ExecutionContext) (step_number : Nat) :
    Value × ExecutionContext :=
  match graph with
  | [] => (data, context)
  | node :: rest =>
    let step := step_number + 1
    let step_context :=
      context.create_child_context ("step_" ++ toString step) (some step) 1
    let (data', _step_context') := execute_node node data step_context
    let context :=
      match nodeTask node with
      | some task => context.add_task_output task.id data'
      | none => context
    runGo rest data' context step

/-- Embeds `ExecutionEngine.run`: create the root context and walk the graph
top-to-bottom, each node consuming the previous node's output. Returns the
final output together with the root context. -/
def run (execution_graph : List ExecutionNode) (input_data : Value)
    (flow_id : String) (flow_metadata : List (String × String)) :
    Value × ExecutionContext :=
  let context := ExecutionContext.init flow_id flow_metadata
  runGo execution_graph input_data context 0

end ExecutionEngine

/-- Source `water/flow.py`, class `Flow`: identity, the accumulated node list
(`_tasks`), the registration flag and the metadata mapping. -/
structure Flow : Type where
  id : String
  description : String
  tasks : List ExecutionNode
  registered : Bool
  metadata : List (String × String)

namespace Flow

/-- Embeds `Flow.then` (named `thenNode` here because `then` is reserved in Lean):
raise if already registered, raise if the task is `None` (both raises happen
before any mutation, so the error component carries the flow unchanged);
otherwise append a Sequential node. Exceptions are modelled as
`some message`, paired with the post-state of the flow object. -/
def thenNode (f : Flow) (task : Option Task) : Option String × Flow :=
  if f.registered then
    (some "Cannot add tasks after registration", f)
  else
    match task with
    | none => (some "Task cannot be None", f)
    | some t =>
      (none, { f with tasks := f.tasks ++ [ExecutionNode.sequential t] })

/-- Embeds `Flow.parallel`: raise if registered, if the list is empty, or if any
task is `None`; otherwise append a Parallel node. -/
def parallel (f : Flow) (tasks : List (Option Task)) : Option String × Flow :=
  if f.registered then
    (some "Cannot add tasks after registration", f)
  else if tasks.isEmpty then
    (some "Parallel task list cannot be empty", f)
  else if tasks.any (fun t => t.isNone) then
    (some "Task cannot be None", f)
  else
    (none, { f with
      tasks := f.tasks ++
        [ExecutionNode.parallel (tasks.filterMap (fun t => t))] })

/-- Embeds `Flow.branch`: raise if registered, if the list is empty, or if any task
is `None` (the async-predicate check cannot arise in the embedding, where
predicates are synchronous `Value → Bool` functions); otherwise append a
Branch node. -/
def branch (f : Flow) (pairs : List ((Value → Bool) × Option Task)) :
    Option String × Flow :=
  if f.registered then
    (some "Cannot add tasks after registration", f)
  else if pairs.isEmpty then
    (some "Branch list cannot be empty", f)
  else if pairs.any (fun p => p.2.isNone) then
    (some "Task cannot be None", f)
  else
    (none, { f with
      tasks := f.tasks ++
        [ExecutionNode.branch (pairs.filterMap
          (fun p => p.2.map (fun t => BranchEntry.mk p.1 t)))] })

/-- Embeds `Flow.loop`: raise if registered or the task is `None`; otherwise append
a Loop node with the given iteration cap (`100` at Python call sites that
omit it). -/
def loop (f : Flow) (condition : Value → Bool) (task : Option Task)
    (max_iterations : Nat) : Option String × Flow :=
  if f.registered then
    (some "Cannot add tasks after registration", f)
  else
    match task with
    | none => (some "Task cannot be None", f)
    | some t =>
      (none, { f with
        tasks := f.tasks ++ [ExecutionNode.loop condition t max_iterations] })

/-- Embeds `Flow.register`: raise if the node list is empty, otherwise freeze. -/
def register (f : Flow) : Option String × Flow :=
  if f.tasks.isEmpty then
    (some "Flow must have at least one task", f)
  else
    (none, { f with registered := true })

/-- Embeds `Flow.run`: raise if not registered (before touching the engine),
otherwise delegate to `ExecutionEngine.run` and return its output. -/
def run (f : Flow) (input_data : Value) : Except String Value :=
  if !f.registered then
    Except.error "Flow must be registered before running"
  else
    Except.ok (ExecutionEngine.run f.tasks input_data f.id f.metadata).1

end Flow

/-!
## Heap model of `ExecutionContext` aliasing

The value-passing engine above cannot express which *object* a Python
mutation lands on. For the fork-isolation contract of
`create_child_context` we therefore model Python's reference structure
explicitly: context objects live in a heap and are denoted by references;
each object's `_task_outputs` dict and `_step_history` list are themselves
heap-allocated and denoted by references, since Python copies or shares them
by reference. `create_child_context` allocates a *fresh* object whose dict
and history references point at *fresh copies* (`self._task_outputs.copy()`,
`self._step_history.copy()`), which is exactly what the isolation theorems
rest on.
-/

/-- A Python `ExecutionContext` object: scalar fields inline, the mutable
`_task_outputs` dict and `_step_history` list as references into the heap. -/
structure CtxObj : Type where
  flow_id : String
  execution_id : String
  task_id : Option String
  step_number : Nat
  attempt_number : Nat
  execution_start_time : Nat
  step_start_time : Nat
  outputsRef : Nat
  historyRef : Nat

/-- The heap: context objects, task-output dicts and step-history lists,
each addressed by its index. -/
structure CtxHeap : Type where
  objs : List CtxObj
  dicts : List (List (String × Value))
  hists : List (List StepInfo)

namespace CtxHeap

/-- Read a context object. -/
def getObj (h : CtxHeap) (r : Nat) : Option CtxObj := h.objs.get? r

/-- Read the `_task_outputs` dict of the context at reference `r`. -/
def readOutputs (h : CtxHeap) (r : Nat) : Option (List (String × Value)) :=
  (h.getObj r).bind (fun o => h.dicts.get? o.outputsRef)

/-- Read the `_step_history` list of the context at reference `r`. -/
def readHistory (h : CtxHeap) (r : Nat) : Option (List StepInfo) :=
  (h.getObj r).bind (fun o => h.hists.get? o.historyRef)

/-- Embeds `ExecutionContext.add_task_output` on the object at `r`: update that
object's dict in place and append a step record to its history. -/
def add_task_output (h : CtxHeap) (r : Nat) (tid : String) (output : Value) :
    CtxHeap :=
  match h.getObj r with
  | none => h
  | some o =>
    { h with
      dicts := h.dicts.set o.outputsRef
        (dictInsert ((h.dicts.get? o.outputsRef).getD []) tid output)
      hists := h.hists.set o.historyRef
        (((h.hists.get? o.historyRef).getD []) ++
          [{ step_number := o.step_number
             task_id := tid
             output := output
             attempt_number := o.attempt_number }]) }

/-- Python field assignment `ctx.task_id = v` on the object at `r`. -/
def setTaskId (h : CtxHeap) (r : Nat) (v : Option String) : CtxHeap :=
  match h.getObj r with
  | none => h
  | some o => { h with objs := h.objs.set r { o with task_id := v } }

/-- Python field assignment `ctx.step_start_time = t` on the object at `r`
(`_execute_task`'s step-timer reset). -/
def setStepStartTime (h : CtxHeap) (r : Nat) (t : Nat) : CtxHeap :=
  match h.getObj r with
  | none => h
  | some o => { h with objs := h.objs.set r { o with step_start_time := t } }

/-- Embeds `ExecutionContext.create_child_context` on the object at `r`: construct a
fresh object (fresh reference) whose dict and history references point at
fresh copies of the parent's dict and history taken at fork time; the child
inherits flow/execution identity and `execution_start_time`, gets the given
task id and attempt number, and the Python `step_number or (step + 1)`
step number. Returns the new heap and the child's reference. -/
def create_child_context (h : CtxHeap) (r : Nat) (tid : String)
    (stepNumber : Option Nat) (attemptNumber : Nat) : CtxHeap × Nat :=
  match h.getObj r with
  | none => (h, r)
  | some o =>
    let childObj : CtxObj :=
      { flow_id := o.flow_id
        execution_id := o.execution_id
        task_id := some tid
        step_number := ExecutionContext.childStep stepNumber o.step_number
        attempt_number := attemptNumber
        execution_start_time := o.execution_start_time
        step_start_time := 0
        outputsRef := h.dicts.length
        historyRef := h.hists.length }
    ({ objs := h.objs ++ [childObj]
       dicts := h.dicts ++ [(h.dicts.get? o.outputsRef).getD []]
       hists := h.hists ++ [(h.hists.get? o.historyRef).getD []] },
     h.objs.length)

end CtxHeap

/-!
## Concrete example tasks

The spec's concrete scenarios (§8): arithmetic tasks on a `{"value": n}`
record, and the notification tasks of `cookbook/branched_flow.py`.
-/

/-- The record `{"value": n}`. -/
def mkValue (n : Int) : Value := Value.dict [("value", Value.int n)]

/-- Read the integer under `"value"` (0 if absent or not an int). -/
def getValue (d : Value) : Int :=
  match d with
  | .dict es =>
    match dictLookup es "value" with
    | some (.int n) => n
    | _ => 0
  | _ => 0

/-- Python `data.get(k, False)` for a boolean flag. -/
def getFlag (d : Value) (k : String) : Bool :=
  match d with
  | .dict es =>
    match dictLookup es k with
    | some (.bool b) => b
    | _ => false
  | _ => false

/-- The spec's `Sequential(+5)` example task. -/
def addFive : Task :=
  { id := "add_five", execute := fun d => mkValue (getValue d + 5) }

/-- The spec's `Sequential(*2)` example task. -/
def timesTwo : Task :=
  { id := "times_two", execute := fun d => mkValue (getValue d * 2) }

/-- Embeds `cookbook/branched_flow.py` `send_email`. -/
def emailTask : Task :=
  { id := "email"
    execute := fun _ =>
      Value.dict [("channel", Value.str "email"), ("sent", Value.bool true)] }

/-- Embeds `cookbook/branched_flow.py` `send_sms`. -/
def smsTask : Task :=
  { id := "sms"
    execute := fun _ =>
      Value.dict [("channel", Value.str "sms"), ("sent", Value.bool true)] }

/-- Embeds `cookbook/branched_flow.py` `send_whatsapp`. -/
def whatsappTask : Task :=
  { id := "whatsapp"
    execute := fun _ =>
      Value.dict [("channel", Value.str "whatsapp"), ("sent", Value.bool true)] }

/-- The branch list of `cookbook/branched_flow.py`: try email, then sms,
then whatsapp, each guarded by its enabled-flag. -/
def notificationBranches : List BranchEntry :=
  [ { condition := fun d => getFlag d "email_enabled", task := emailTask }
  , { condition := fun d => getFlag d "sms_enabled", task := smsTask }
  , { condition := fun d => getFlag d "whatsapp_enabled", task := whatsappTask } ]

/-- A user record with the given notification preferences. -/
def userPrefs (email sms whatsapp : Bool) : Value :=
  Value.dict
    [ ("email_enabled", Value.bool email)
    , ("sms_enabled", Value.bool sms)
    , ("whatsapp_enabled", Value.bool whatsapp) ]

/-!
## Theorems
-/

/-- C10: `create_child_context` computes the child's step number with
Python's `step_number or (self.step_number + 1)`, so an explicitly passed
`step_number=0` is falsy and silently ignored — the child gets
`parent.step_number + 1` — and no call can produce a child at step 0. -/
theorem child_step_zero_ignored (c : ExecutionContext) (tid : String)
    (a : Nat) :
    (c.create_child_context tid (some 0) a).step_number = c.step_number + 1
    ∧ ∀ s : Option Nat, (c.create_child_context tid s a).step_number ≠ 0 := by
  constructor
  · rfl
  · intro s
    match s with
    | none => simp [ExecutionContext.create_child_context, ExecutionContext.childStep]
    | some n =>
      simp only [ExecutionContext.create_child_context, ExecutionContext.childStep]
      by_cases hn : n = 0
      · simp [hn]
      · simp [hn]

/-- C8: flow lifecycle errors — `register()` on a flow with an empty node
list raises and leaves the flow unchanged; `then` on a registered flow
raises and leaves the node list unchanged; `run` on an unregistered flow
raises (before the engine is ever consulted). -/
theorem flow_lifecycle_errors (f g w : Flow) (t : Option Task) (X : Value)
    (h1 : f.tasks = []) (h2 : g.registered = true)
    (h3 : w.registered = false) :
    ((f.register).1.isSome ∧ (f.register).2 = f)
    ∧ ((g.thenNode t).1.isSome ∧ (g.thenNode t).2 = g)
    ∧ (∃ e, w.run X = Except.error e) := by
  refine ⟨⟨?_, ?_⟩, ⟨?_, ?_⟩, ?_⟩
  · simp [Flow.register, h1]
  · simp [Flow.register, h1]
  · simp [Flow.thenNode, h2]
  · simp [Flow.thenNode, h2]
  · exact ⟨"Flow must be registered before running", by simp [Flow.run, h3]⟩

/-- Closed witness for C8 at concrete flows: an empty unregistered flow, a
registered flow, and an unregistered flow with one node. -/
theorem flow_lifecycle_errors_witness :
    (((Flow.mk "f1" "empty" [] false []).register).1.isSome
      ∧ ((Flow.mk "f1" "empty" [] false []).register).2
          = Flow.mk "f1" "empty" [] false [])
    ∧ (((Flow.mk "f2" "frozen" [ExecutionNode.sequential addFive] true
          []).thenNode (some timesTwo)).1.isSome
      ∧ ((Flow.mk "f2" "frozen" [ExecutionNode.sequential addFive] true
          []).thenNode (some timesTwo)).2
          = Flow.mk "f2" "frozen" [ExecutionNode.sequential addFive] true [])
    ∧ (∃ e, (Flow.mk "f3" "unregistered" [ExecutionNode.sequential addFive]
        false []).run (mkValue 2) = Except.error e) :=
  flow_lifecycle_errors _ _ _ (some timesTwo) (mkValue 2) rfl rfl rfl

/-- C4: a Branch node on which no predicate matches invokes no task body and
returns the input data unchanged (and the step context untouched), raising
no error. -/
theorem branch_no_match_identity (branches : List BranchEntry) (X : Value)
    (c : ExecutionContext)
    (h : ∀ e ∈ branches, e.condition X = false) :
    ExecutionEngine.execute_branch branches X c = (X, c) := by
  induction branches with
  | nil => rfl
  | cons b rest ih =>
    have hb : b.condition X = false := h b (List.mem_cons_self b rest)
    simp only [ExecutionEngine.execute_branch, hb, Bool.false_eq_true,
      if_false]
    exact ih (fun e he => h e (List.mem_cons_of_mem b he))

/-- Closed witness for C4: no notification channel enabled, so no branch
predicate matches and the user record passes through unchanged. -/
theorem branch_no_match_identity_witness :
    ExecutionEngine.execute_branch notificationBranches
      (userPrefs false false false) (ExecutionContext.init "nf" [])
      = (userPrefs false false false, ExecutionContext.init "nf" []) :=
  branch_no_match_identity notificationBranches
    (userPrefs false false false) (ExecutionContext.init "nf" [])
    (by intro e he; fin_cases he <;> rfl)

/-- C5: a Loop node whose predicate is false on the initial input never
invokes the task body and returns the input unchanged (the predicate is
checked before the first iteration). -/
theorem loop_false_predicate_identity (condition : Value → Bool)
    (task : Task) (max_iterations : Nat) (X : Value) (c : ExecutionContext)
    (h : condition X = false) :
    ExecutionEngine.execute_loop condition task max_iterations X c
      = (X, c) := by
  match max_iterations with
  | 0 => rfl
  | r + 1 =>
    simp [ExecutionEngine.execute_loop, ExecutionEngine.loopGo, h]

/-- Closed witness for C5: a loop guarded by `value < 0` on `{"value": 2}`
returns the input unchanged. -/
theorem loop_false_predicate_identity_witness :
    ExecutionEngine.execute_loop (fun d => getValue d < 0) addFive 100
      (mkValue 2) (ExecutionContext.init "lf" [])
      = (mkValue 2, ExecutionContext.init "lf" []) :=
  loop_false_predicate_identity (fun d => getValue d < 0) addFive 100
    (mkValue 2) (ExecutionContext.init "lf" []) (by decide)

/-- C3: Branch is first-match-wins — if every predicate before `b` fails on
`X` and `b`'s predicate holds, the node returns `b`'s task's output on `X`,
whatever the later entries are (they are universally quantified, so no later
task body can influence the result). -/
theorem branch_first_match (pre post : List BranchEntry) (b : BranchEntry)
    (X : Value) (c : ExecutionContext)
    (h1 : ∀ e ∈ pre, e.condition X = false) (h2 : b.condition X = true) :
    (ExecutionEngine.execute_branch (pre ++ b :: post) X c).1
      = b.task.execute X := by
  induction pre with
  | nil =>
    simp [ExecutionEngine.execute_branch, h2, ExecutionEngine.execute_task]
  | cons e es ih =>
    have he : e.condition X = false := h1 e (List.mem_cons_self e es)
    simp only [List.cons_append, ExecutionEngine.execute_branch, he,
      Bool.false_eq_true, if_false]
    exact ih (fun e' he' => h1 e' (List.mem_cons_of_mem e he'))

/-- Closed witness for C3, the spec's scenario with two true predicates: a
user with sms and whatsapp enabled but email disabled takes the sms branch
(first match), never the whatsapp one. -/
theorem branch_first_match_witness :
    (ExecutionEngine.execute_branch notificationBranches
      (userPrefs false true true) (ExecutionContext.init "nf" [])).1
      = smsTask.execute (userPrefs false true true) :=
  branch_first_match
    [{ condition := fun d => getFlag d "email_enabled", task := emailTask }]
    [{ condition := fun d => getFlag d "whatsapp_enabled",
       task := whatsappTask }]
    { condition := fun d => getFlag d "sms_enabled", task := smsTask }
    (userPrefs false true true) (ExecutionContext.init "nf" [])
    (by intro e he; fin_cases he; rfl) rfl

/-- The body of `_execute_loop`'s while-loop under an always-true predicate:
it runs down the whole fuel, composing the task body with itself and
appending one step record per iteration. -/
theorem loopGo_all_true (condition : Value → Bool) (task : Task)
    (hcond : ∀ d, condition d = true) :
    ∀ (r i : Nat) (c : ExecutionContext) (X : Value),
      (ExecutionEngine.loopGo condition task c i r X).1 = task.execute^[r] X
      ∧ (ExecutionEngine.loopGo condition task c i r X).2.1.step_history.length
          = c.step_history.length + r := by
  intro r
  induction r with
  | zero => intro i c X; exact ⟨rfl, rfl⟩
  | succ r ih =>
    intro i c X
    simp only [ExecutionEngine.loopGo, hcond X, if_true,
      ExecutionEngine.execute_task]
    refine ⟨?_, ?_⟩
    · rw [(ih (i + 1) _ (task.execute X)).1, ← Function.iterate_succ_apply]
    · rw [(ih (i + 1) _ (task.execute X)).2]
      simp only [ExecutionContext.add_task_output, List.length_append,
        List.length_cons, List.length_nil]
      omega

/-- C6: a Loop node with cap `k ≥ 1` and an always-true predicate terminates
after invoking the task body exactly `k` times (one step record per
iteration), each iteration's output feeding the next, and returns the k-th
iterate of the body as a normal result (the cap is a warning, not an
error path). -/
theorem loop_cap_iterations (condition : Value → Bool) (task : Task)
    (k : Nat) (X : Value) (c : ExecutionContext)
    (hcond : ∀ d, condition d = true) (_hk : 1 ≤ k) :
    (ExecutionEngine.execute_loop condition task k X c).1 = task.execute^[k] X
    ∧ (ExecutionEngine.execute_loop condition task k X c).2.step_history.length
        = c.step_history.length + k :=
  ⟨(loopGo_all_true condition task hcond k 0 c X).1,
   (loopGo_all_true condition task hcond k 0 c X).2⟩

/-- Closed witness for C6: an always-true loop over `+5` with cap 3 runs
3 iterations and stops. -/
theorem loop_cap_iterations_witness :
    (ExecutionEngine.execute_loop (fun _ => true) addFive 3 (mkValue 2)
      (ExecutionContext.init "lp" [])).1 = addFive.execute^[3] (mkValue 2)
    ∧ (ExecutionEngine.execute_loop (fun _ => true) addFive 3 (mkValue 2)
      (ExecutionContext.init "lp" [])).2.step_history.length
        = (ExecutionContext.init "lp" []).step_history.length + 3 :=
  loop_cap_iterations (fun _ => true) addFive 3 (mkValue 2)
    (ExecutionContext.init "lp" []) (fun _ => rfl) (by decide)

/-- The engine's top-level walk over a graph of Sequential nodes threads the
data as a left fold of the task bodies, from any starting context and step
number. -/
theorem runGo_sequential (tasks : List Task) (X : Value)
    (c : ExecutionContext) (n : Nat) :
    (ExecutionEngine.runGo (tasks.map ExecutionNode.sequential) X c n).1
      = tasks.foldl (fun d t => t.execute d) X := by
  induction tasks generalizing X c n with
  | nil => rfl
  | cons t ts ih =>
    simp only [List.map_cons, ExecutionEngine.runGo,
      ExecutionEngine.execute_node, ExecutionEngine.execute_sequential,
      ExecutionEngine.execute_task, ExecutionEngine.nodeTask,
      List.foldl_cons]
    exact ih (t.execute X) _ _

/-- C1: for a graph of Sequential nodes with tasks `t1..tN`, the engine
returns the composition `tN(...t2(t1(X))...)` — each node consumes the
previous node's output; in particular `{"value": 2}` through
Sequential(+5) then Sequential(*2) yields `{"value": 14}`. -/
theorem sequential_chain_is_composition :
    (∀ (tasks : List Task) (X : Value) (fid : String)
        (md : List (String × String)),
      (ExecutionEngine.run (tasks.map ExecutionNode.sequential) X fid md).1
        = tasks.foldl (fun d t => t.execute d) X)
    ∧ (ExecutionEngine.run
        [ExecutionNode.sequential addFive, ExecutionNode.sequential timesTwo]
        (mkValue 2) "math" []).1 = mkValue 14 := by
  constructor
  · intro tasks X fid md
    exact runGo_sequential tasks X _ 0
  · rfl

/-- Inserting a key absent from the dict appends at the end (the overwrite
branch of `d[k] = v` is not taken). -/
theorem dictInsert_fresh {α : Type} (d : List (String × α)) (k : String)
    (v : α) (h : ∀ p ∈ d, p.1 ≠ k) : dictInsert d k v = d ++ [(k, v)] := by
  have hany : d.any (fun p => p.1 = k) = false := by
    rw [List.any_eq_false]
    intro p hp
    simp only [decide_eq_true_eq]
    exact h p hp
  simp [dictInsert, hany]

/-- Folding `organized[t.id] = f t` over a task list whose ids are fresh for
the accumulator and pairwise distinct just appends the pairs in order. -/
theorem foldl_dictInsert_nodup (f : Task → Value) :
    ∀ (tasks : List Task) (acc : List (String × Value)),
      (acc.map Prod.fst ++ tasks.map Task.id).Nodup →
      tasks.foldl (fun d t => dictInsert d t.id (f t)) acc
        = acc ++ tasks.map (fun t => (t.id, f t))
  | [], acc, _ => by simp
  | t :: ts, acc, h => by
    have hdisj := List.disjoint_of_nodup_append h
    have hfresh : ∀ p ∈ acc, p.1 ≠ t.id := by
      intro p hp
      exact fun hpk =>
        hdisj (hpk ▸ List.mem_map_of_mem Prod.fst hp)
          (List.mem_cons_self _ _)
    have hperm :
        ((acc ++ [(t.id, f t)]).map Prod.fst ++ ts.map Task.id)
          = acc.map Prod.fst ++ (t.id :: ts.map Task.id) := by
      simp
    simp only [List.foldl_cons, List.map_cons] at h ⊢
    rw [dictInsert_fresh acc t.id (f t) hfresh,
      foldl_dictInsert_nodup f ts (acc ++ [(t.id, f t)]) (by rw [hperm]; exact h)]
    simp

/-- Zipping a list with a mapped copy pairs each element with its image. -/
theorem zip_self_map {β : Type} (g : Task → β) :
    ∀ (l : List Task), l.zip (l.map g) = l.map (fun t => (t, g t))
  | [] => rfl
  | t :: ts => by simp [List.zip_cons_cons, zip_self_map g ts]

/-- Evaluating `_execute_parallel` with pairwise-distinct task ids builds exactly the
association list pairing each task id with that task's output on the shared
input. -/
theorem execute_parallel_eq (tasks : List Task) (X : Value)
    (c : ExecutionContext) (h : (tasks.map Task.id).Nodup) :
    ExecutionEngine.execute_parallel tasks X c
      = tasks.map (fun t => (t.id, t.execute X)) := by
  simp only [ExecutionEngine.execute_parallel, zip_self_map, List.foldl_map]
  exact foldl_dictInsert_nodup _ tasks [] (by simpa using h)

/-- Looking up a task's id in the assembled results list returns that task's
own entry when the ids are pairwise distinct. -/
theorem dictLookup_map_nodup (g : Task → Value) :
    ∀ (tasks : List Task), (tasks.map Task.id).Nodup →
      ∀ t ∈ tasks,
        dictLookup (tasks.map (fun t => (t.id, g t))) t.id = some (g t)
  | [], _, t, ht => absurd ht (List.not_mem_nil t)
  | a :: as, h, t, ht => by
    rw [List.map_cons, List.nodup_cons] at h
    rcases List.mem_cons.mp ht with rfl | hmem
    · simp [dictLookup, List.find?_cons_of_pos]
    · by_cases hid : a.id = t.id
      · exact absurd (hid ▸ List.mem_map_of_mem Task.id hmem) h.1
      · have hstep : dictLookup ((a :: as).map (fun t => (t.id, g t))) t.id
            = dictLookup (as.map (fun t => (t.id, g t))) t.id := by
          simp only [List.map_cons, dictLookup]
          rw [List.find?_cons_of_neg]
          simpa using hid
        rw [hstep]
        exact dictLookup_map_nodup g as h.2 t hmem

/-- C2: a Parallel node over a non-empty task list with pairwise-distinct
ids returns a mapping whose key list is exactly the task ids in list order,
each id mapped to that task's own output on the shared input `X`
(`asyncio.gather` returns results in task order, so the assembled dict does
not depend on completion order). -/
theorem parallel_fanout (tasks : List Task) (X : Value)
    (c : ExecutionContext) (_hne : tasks ≠ [])
    (h : (tasks.map Task.id).Nodup) :
    (ExecutionEngine.execute_parallel tasks X c).map Prod.fst
        = tasks.map Task.id
    ∧ ∀ t ∈ tasks,
        dictLookup (ExecutionEngine.execute_parallel tasks X c) t.id
          = some (t.execute X) := by
  rw [execute_parallel_eq tasks X c h]
  constructor
  · simp
  · exact dictLookup_map_nodup (fun t => t.execute X) tasks h

/-- Closed witness for C2: the three notification tasks fanned out over one
user record. -/
theorem parallel_fanout_witness :
    (ExecutionEngine.execute_parallel [emailTask, smsTask, whatsappTask]
        (userPrefs true true false)
        (ExecutionContext.init "pf" [])).map Prod.fst
      = [emailTask, smsTask, whatsappTask].map Task.id
    ∧ ∀ t ∈ [emailTask, smsTask, whatsappTask],
        dictLookup
          (ExecutionEngine.execute_parallel [emailTask, smsTask, whatsappTask]
            (userPrefs true true false) (ExecutionContext.init "pf" [])) t.id
          = some (t.execute (userPrefs true true false)) :=
  parallel_fanout [emailTask, smsTask, whatsappTask]
    (userPrefs true true false) (ExecutionContext.init "pf" [])
    (List.cons_ne_nil _ _) (by decide)

/-- Counterexample to C7: run a one-node graph whose only node is the
cookbook's Branch over notification tasks, on a user with email enabled.
The node completes and returns the executed email task's output, yet the
root context's output-by-task-id mapping is empty — `run` records only
nodes whose dict has a `'task'` key (Sequential/Loop), and
`_execute_branch`'s own `add_task_output` lands on the discarded per-step
child context, never on the root. -/
theorem branch_result_not_recorded_in_root :
    (ExecutionEngine.run [ExecutionNode.branch notificationBranches]
      (userPrefs true true false) "nf" []).1
      = emailTask.execute (userPrefs true true false)
    ∧ (ExecutionEngine.run [ExecutionNode.branch notificationBranches]
      (userPrefs true true false) "nf" []).2.task_outputs = [] :=
  ⟨rfl, rfl⟩

/-- Engine runs compose over graph concatenation: walking `g1 ++ g2` is
walking `g1`, then continuing into `g2` from the resulting data, root
context and step number. -/
theorem runGo_append (g1 g2 : List ExecutionNode) :
    ∀ (X : Value) (c : ExecutionContext) (n : Nat),
      ExecutionEngine.runGo (g1 ++ g2) X c n
        = ExecutionEngine.runGo g2 (ExecutionEngine.runGo g1 X c n).1
            (ExecutionEngine.runGo g1 X c n).2 (n + g1.length) := by
  induction g1 with
  | nil => intro X c n; rfl
  | cons node rest ih =>
    intro X c n
    have hstep : n + (node :: rest).length = (n + 1) + rest.length := by
      simp only [List.length_cons]
      omega
    have hL :
        ExecutionEngine.runGo ((node :: rest) ++ g2) X c n
          = ExecutionEngine.runGo (rest ++ g2)
              (ExecutionEngine.execute_node node X
                (c.create_child_context ("step_" ++ toString (n + 1))
                  (some (n + 1)) 1)).1
              (match ExecutionEngine.nodeTask node with
               | some task =>
                 c.add_task_output task.id
                   (ExecutionEngine.execute_node node X
                     (c.create_child_context ("step_" ++ toString (n + 1))
                       (some (n + 1)) 1)).1
               | none => c) (n + 1) := rfl
    have hR :
        ExecutionEngine.runGo (node :: rest) X c n
          = ExecutionEngine.runGo rest
              (ExecutionEngine.execute_node node X
                (c.create_child_context ("step_" ++ toString (n + 1))
                  (some (n + 1)) 1)).1
              (match ExecutionEngine.nodeTask node with
               | some task =>
                 c.add_task_output task.id
                   (ExecutionEngine.execute_node node X
                     (c.create_child_context ("step_" ++ toString (n + 1))
                       (some (n + 1)) 1)).1
               | none => c) (n + 1) := rfl
    rw [hL, ih, hR, hstep]

/-- The run state (current data, root context) after `run` has processed
the top-level graph prefix `pre` of a run started on input `X`. -/
def ExecutionEngine.afterPrefix (pre : List ExecutionNode) (X : Value)
    (fid : String) (md : List (String × String)) :
    Value × ExecutionContext :=
  ExecutionEngine.runGo pre X (ExecutionContext.init fid md) 0

/-- The output that the top-level node `node` produces when it executes
right after prefix `pre`, with the per-step child context `run` forks for
it at step `pre.length + 1`. -/
def ExecutionEngine.nodeResult (pre : List ExecutionNode)
    (node : ExecutionNode) (X : Value) (fid : String)
    (md : List (String × String)) : Value :=
  (ExecutionEngine.execute_node node
    (ExecutionEngine.afterPrefix pre X fid md).1
    ((ExecutionEngine.afterPrefix pre X fid md).2.create_child_context
      ("step_" ++ toString (pre.length + 1)) (some (pre.length + 1))
      1)).1

/-- C7 (amended): for every graph and every top-level node in it — every
decomposition `pre ++ node :: post` — the moment the node completes, the
root context is `add_task_output task.id result` of the pre-node root
context when the node dict has a `'task'` key (its `nodeTask` is `some`),
and is the pre-node root context *unchanged* when it has none, so nothing
of the node is ever recorded then; `nodeTask` is `some` exactly for
Sequential and Loop nodes (with that node's task) and `none` exactly for
Parallel and Branch nodes. -/
theorem root_recording_by_node_kind (pre post : List ExecutionNode)
    (node : ExecutionNode) (X : Value) (fid : String)
    (md : List (String × String)) :
    (∀ task, ExecutionEngine.nodeTask node = some task →
      ExecutionEngine.run (pre ++ node :: post) X fid md
        = ExecutionEngine.runGo post
            (ExecutionEngine.nodeResult pre node X fid md)
            ((ExecutionEngine.afterPrefix pre X fid md).2.add_task_output
              task.id (ExecutionEngine.nodeResult pre node X fid md))
            (pre.length + 1))
    ∧ (ExecutionEngine.nodeTask node = none →
      ExecutionEngine.run (pre ++ node :: post) X fid md
        = ExecutionEngine.runGo post
            (ExecutionEngine.nodeResult pre node X fid md)
            (ExecutionEngine.afterPrefix pre X fid md).2
            (pre.length + 1))
    ∧ (∀ t, ExecutionEngine.nodeTask (ExecutionNode.sequential t) = some t)
    ∧ (∀ condition t k,
        ExecutionEngine.nodeTask (ExecutionNode.loop condition t k)
          = some t)
    ∧ (∀ ts, ExecutionEngine.nodeTask (ExecutionNode.parallel ts) = none)
    ∧ (∀ bs, ExecutionEngine.nodeTask (ExecutionNode.branch bs) = none) := by
  refine ⟨?_, ?_, fun t => rfl, fun condition t k => rfl, fun ts => rfl,
    fun bs => rfl⟩
  · intro task htask
    show ExecutionEngine.runGo (pre ++ node :: post) X
      (ExecutionContext.init fid md) 0 = _
    rw [runGo_append, Nat.zero_add]
    simp only [ExecutionEngine.runGo, htask, ExecutionEngine.afterPrefix,
      ExecutionEngine.nodeResult]
  · intro hnone
    show ExecutionEngine.runGo (pre ++ node :: post) X
      (ExecutionContext.init fid md) 0 = _
    rw [runGo_append, Nat.zero_add]
    simp only [ExecutionEngine.runGo, hnone, ExecutionEngine.afterPrefix,
      ExecutionEngine.nodeResult]

/-- Closed witness for C7's amended theorem: in the two-node graph
[Sequential(+5), Branch(notifications)], the Branch node has no `'task'`
key, and the run continues past it with the root context exactly the
post-prefix context — nothing of the branch is recorded on the root. -/
theorem root_recording_by_node_kind_witness :
    ExecutionEngine.nodeTask (ExecutionNode.branch notificationBranches)
      = none
    ∧ ExecutionEngine.run
        [ExecutionNode.sequential addFive,
          ExecutionNode.branch notificationBranches] (mkValue 2) "g" []
      = ExecutionEngine.runGo []
          (ExecutionEngine.nodeResult [ExecutionNode.sequential addFive]
            (ExecutionNode.branch notificationBranches) (mkValue 2) "g" [])
          (ExecutionEngine.afterPrefix [ExecutionNode.sequential addFive]
            (mkValue 2) "g" []).2
          ([ExecutionNode.sequential addFive].length + 1) :=
  ⟨rfl,
    (root_recording_by_node_kind [ExecutionNode.sequential addFive] []
      (ExecutionNode.branch notificationBranches) (mkValue 2) "g"
      []).2.1 rfl⟩

/-- The mutations named by the fork-isolation contract of
`create_child_context`: recording a task output, and the field assignments
`ctx.task_id = v` / `ctx.step_start_time = t` that `_execute_task`
performs. -/
inductive CtxMutation : Type where
  | addOutput (tid : String) (output : Value)
  | assignTaskId (v : Option String)
  | assignStepStartTime (t : Nat)

/-- Apply one of the contract's mutations to the context object at `r`. -/
def CtxHeap.applyMutation (h : CtxHeap) (r : Nat) : CtxMutation → CtxHeap
  | .addOutput tid output => h.add_task_output r tid output
  | .assignTaskId v => h.setTaskId r v
  | .assignStepStartTime t => h.setStepStartTime r t

/-- Everything observable about the context at `r`: its object (all scalar
fields), its task-output dict, and its step history. -/
def CtxHeap.observe (h : CtxHeap) (r : Nat) :
    Option CtxObj × Option (List (String × Value)) × Option (List StepInfo) :=
  (h.getObj r, h.readOutputs r, h.readHistory r)

/-- Aliasing lemma: mutating the context object at `c` leaves every
observation of the context at `r` intact, provided the two references and
their objects' dict/history references are distinct. -/
theorem isolation_aux (base : CtxHeap) (r c : Nat) (o co : CtxObj)
    (hro : base.getObj r = some o) (hco : base.getObj c = some co)
    (hcr : c ≠ r)
    (hout : co.outputsRef ≠ o.outputsRef)
    (hhist : co.historyRef ≠ o.historyRef) :
    ∀ m : CtxMutation, (base.applyMutation c m).observe r = base.observe r := by
  have hro' : base.objs.get? r = some o := hro
  have hco' : base.objs.get? c = some co := hco
  intro m
  cases m with
  | addOutput tid output =>
    simp only [CtxHeap.applyMutation, CtxHeap.add_task_output, hco',
      CtxHeap.observe, CtxHeap.getObj, CtxHeap.readOutputs,
      CtxHeap.readHistory, hro', Option.some_bind]
    rw [List.get?_set_ne _ _ hout, List.get?_set_ne _ _ hhist]
  | assignTaskId v =>
    simp only [CtxHeap.applyMutation, CtxHeap.setTaskId, hco',
      CtxHeap.observe, CtxHeap.getObj, CtxHeap.readOutputs,
      CtxHeap.readHistory]
    rw [List.get?_set_ne _ _ hcr]
  | assignStepStartTime t =>
    simp only [CtxHeap.applyMutation, CtxHeap.setStepStartTime, hco',
      CtxHeap.observe, CtxHeap.getObj, CtxHeap.readOutputs,
      CtxHeap.readHistory]
    rw [List.get?_set_ne _ _ hcr]

/-- C9: `create_child_context` shares no mutable state with the parent. The
child is a fresh object whose dict and history are fresh copies, so every
contract mutation (recording an output, assigning `task_id` or
`step_start_time`) applied to the child leaves the parent's object, dict
and history exactly as they were, and vice versa. -/
theorem fork_isolation (h : CtxHeap) (r : Nat) (tid : String)
    (s : Option Nat) (a : Nat) (o : CtxObj)
    (hobj : h.getObj r = some o)
    (hout : o.outputsRef < h.dicts.length)
    (hhist : o.historyRef < h.hists.length) :
    (h.create_child_context r tid s a).2 ≠ r
    ∧ ∀ m : CtxMutation,
      (((h.create_child_context r tid s a).1.applyMutation
          (h.create_child_context r tid s a).2 m).observe r
        = (h.create_child_context r tid s a).1.observe r)
      ∧ (((h.create_child_context r tid s a).1.applyMutation r m).observe
          (h.create_child_context r tid s a).2
        = (h.create_child_context r tid s a).1.observe
            (h.create_child_context r tid s a).2) := by
  have hr : r < h.objs.length := by
    rcases Nat.lt_or_ge r h.objs.length with hlt | hge
    · exact hlt
    · rw [CtxHeap.getObj, List.get?_eq_none.mpr hge] at hobj
      cases hobj
  simp only [CtxHeap.create_child_context, hobj]
  refine ⟨(Nat.ne_of_lt hr).symm, fun m => ⟨?_, ?_⟩⟩
  · exact isolation_aux _ r h.objs.length o
      { flow_id := o.flow_id
        execution_id := o.execution_id
        task_id := some tid
        step_number := ExecutionContext.childStep s o.step_number
        attempt_number := a
        execution_start_time := o.execution_start_time
        step_start_time := 0
        outputsRef := h.dicts.length
        historyRef := h.hists.length }
      (by rw [CtxHeap.getObj, List.get?_append hr]; exact hobj)
      (by rw [CtxHeap.getObj]; exact List.get?_concat_length _ _)
      ((Nat.ne_of_lt hr).symm)
      (Nat.ne_of_lt hout).symm (Nat.ne_of_lt hhist).symm m
  · exact isolation_aux _ h.objs.length r
      { flow_id := o.flow_id
        execution_id := o.execution_id
        task_id := some tid
        step_number := ExecutionContext.childStep s o.step_number
        attempt_number := a
        execution_start_time := o.execution_start_time
        step_start_time := 0
        outputsRef := h.dicts.length
        historyRef := h.hists.length }
      o
      (by rw [CtxHeap.getObj]; exact List.get?_concat_length _ _)
      (by rw [CtxHeap.getObj, List.get?_append hr]; exact hobj)
      (Nat.ne_of_lt hr)
      (Nat.ne_of_lt hout) (Nat.ne_of_lt hhist) m

/-- Closed witness for C9 on a one-object heap whose sole context owns the
first dict and history cells. -/
theorem fork_isolation_witness :
    (CtxHeap.create_child_context
        ⟨[⟨"fl", "ex", none, 0, 1, 0, 0, 0, 0⟩], [[]], [[]]⟩ 0 "child" none
        1).2 ≠ 0
    ∧ ∀ m : CtxMutation,
      (((CtxHeap.create_child_context
            ⟨[⟨"fl", "ex", none, 0, 1, 0, 0, 0, 0⟩], [[]], [[]]⟩ 0 "child"
            none 1).1.applyMutation
          (CtxHeap.create_child_context
            ⟨[⟨"fl", "ex", none, 0, 1, 0, 0, 0, 0⟩], [[]], [[]]⟩ 0 "child"
            none 1).2 m).observe 0
        = (CtxHeap.create_child_context
            ⟨[⟨"fl", "ex", none, 0, 1, 0, 0, 0, 0⟩], [[]], [[]]⟩ 0 "child"
            none 1).1.observe 0)
      ∧ (((CtxHeap.create_child_context
            ⟨[⟨"fl", "ex", none, 0, 1, 0, 0, 0, 0⟩], [[]], [[]]⟩ 0 "child"
            none 1).1.applyMutation 0 m).observe
          (CtxHeap.create_child_context
            ⟨[⟨"fl", "ex", none, 0, 1, 0, 0, 0, 0⟩], [[]], [[]]⟩ 0 "child"
            none 1).2
        = (CtxHeap.create_child_context
            ⟨[⟨"fl", "ex", none, 0, 1, 0, 0, 0, 0⟩], [[]], [[]]⟩ 0 "child"
            none 1).1.observe
            (CtxHeap.create_child_context
              ⟨[⟨"fl", "ex", none, 0, 1, 0, 0, 0, 0⟩], [[]], [[]]⟩ 0 "child"
              none 1).2) :=
  fork_isolation ⟨[⟨"fl", "ex", none, 0, 1, 0, 0, 0, 0⟩], [[]], [[]]⟩ 0
    "child" none 1 ⟨"fl", "ex", none, 0, 1, 0, 0, 0, 0⟩ rfl
    (by decide) (by decide)

end Water
